import Mathlib

/-!
Verification of the FOMOD Designer document model (`src/nodes.py`).

The development shallowly embeds the parts of the source that the claims
concern:

* the metadata snapshot escaping performed by `_NodeElement.save_metadata`
  and the inverse substitution performed by `_NodeElement.load_metadata`
  (chains of Python `str.replace` calls), embedded as structurally
  recursive functions on `List Char`;
* the node-type schema registry (one Lean constructor per `_NodeElement`
  subclass), the structural tree operations `can_add_child`, `add_child`,
  `remove_child`, `set_hidden` and the document-wide `sort`;
* the metadata codec entry points `load_metadata` (comment scan) and
  `save_metadata` (sentinel comment update/removal/append).

Qt model items, property widgets and the lxml serializer are outside the
embedded state: the embedding captures the structural state (node type,
children order, comment texts, user sort ranks, hidden lists, metadata
mapping) that the claims are about.
-/

/-! ## Python `str.replace` chains used by the metadata codec

`save_metadata` (nodes.py, line 264) runs
`node_string.replace("<!--", "<!- -").replace("-->", "- ->")` and
`load_metadata` (line 238) runs
`node_string.replace("<!- -", "<!--").replace("- ->", "-->")`.

Python's `str.replace` substitutes the leftmost occurrence, continues
scanning just after the inserted replacement, and never matches across a
replacement boundary.  Each pass below is that scan for one fixed
pattern, written with explicit list patterns so that every equation is
structural. -/

/-- Embedding of `.replace("<!--", "<!- -")` from `save_metadata`. -/
def esc1 : List Char → List Char
| [] => []
| [c] => [c]
| [c, d] => [c, d]
| [c, d, e] => [c, d, e]
| c :: d :: e :: f :: t =>
  if c = '<' ∧ d = '!' ∧ e = '-' ∧ f = '-'
  then '<' :: '!' :: '-' :: ' ' :: '-' :: esc1 t
  else c :: esc1 (d :: e :: f :: t)

/-- Embedding of `.replace("-->", "- ->")` from `save_metadata`. -/
def esc2 : List Char → List Char
| [] => []
| [c] => [c]
| [c, d] => [c, d]
| c :: d :: e :: t =>
  if c = '-' ∧ d = '-' ∧ e = '>'
  then '-' :: ' ' :: '-' :: '>' :: esc2 t
  else c :: esc2 (d :: e :: t)

/-- Embedding of `.replace("<!- -", "<!--")` from `load_metadata`. -/
def une1 : List Char → List Char
| [] => []
| [c] => [c]
| [c, d] => [c, d]
| [c, d, e] => [c, d, e]
| [c, d, e, f] => [c, d, e, f]
| c :: d :: e :: f :: g :: t =>
  if c = '<' ∧ d = '!' ∧ e = '-' ∧ f = ' ' ∧ g = '-'
  then '<' :: '!' :: '-' :: '-' :: une1 t
  else c :: une1 (d :: e :: f :: g :: t)

/-- Embedding of `.replace("- ->", "-->")` from `load_metadata`. -/
def une2 : List Char → List Char
| [] => []
| [c] => [c]
| [c, d] => [c, d]
| [c, d, e] => [c, d, e]
| c :: d :: e :: f :: t =>
  if c = '-' ∧ d = ' ' ∧ e = '-' ∧ f = '>'
  then '-' :: '-' :: '>' :: une2 t
  else c :: une2 (d :: e :: f :: t)

/-- The full snapshot-escaping substitution of `save_metadata` (line 264):
both replace passes in source order. -/
def pyEscape (s : List Char) : List Char := esc2 (esc1 s)

/-- The full un-escaping substitution of `load_metadata` (line 238):
both replace passes in source order. -/
def pyUnescape (s : List Char) : List Char := une2 (une1 s)

/-- Substring occurrence test: `hasSeq pat l` is true when `pat` occurs
as a contiguous subsequence of `l`. -/
def hasSeq (pat : List Char) : List Char → Bool
| [] => pat.isEmpty
| c :: t => pat.isPrefixOf (c :: t) || hasSeq pat t

/-! ### Step equations for the four replace passes -/

theorem esc1_lit (c : Char) (hc : c ≠ '<') : ∀ t, esc1 (c :: t) = c :: esc1 t := by
  intro t
  rcases t with _ | ⟨d, t⟩
  · rfl
  rcases t with _ | ⟨e, t⟩
  · rfl
  rcases t with _ | ⟨f, t⟩
  · rfl
  have : ¬ (c = '<' ∧ d = '!' ∧ e = '-' ∧ f = '-') := by
    intro h; exact hc h.1
  simp [esc1, this]

theorem esc1_lt (t : List Char) (h : (['!', '-', '-'].isPrefixOf t) = false) :
    esc1 ('<' :: t) = '<' :: esc1 t := by
  rcases t with _ | ⟨d, t⟩
  · rfl
  rcases t with _ | ⟨e, t⟩
  · rfl
  rcases t with _ | ⟨f, t⟩
  · rfl
  by_cases hd : d = '!' ∧ e = '-' ∧ f = '-'
  · obtain ⟨h1, h2, h3⟩ := hd
    subst h1; subst h2; subst h3
    simp [List.isPrefixOf] at h
  · simp [esc1, hd]

theorem esc1_hit : ∀ t, esc1 ('<' :: '!' :: '-' :: '-' :: t) =
    '<' :: '!' :: '-' :: ' ' :: '-' :: esc1 t := by
  intro t; simp [esc1]

theorem esc2_lit (c : Char) (hc : c ≠ '-') : ∀ t, esc2 (c :: t) = c :: esc2 t := by
  intro t
  rcases t with _ | ⟨d, t⟩
  · rfl
  rcases t with _ | ⟨e, t⟩
  · rfl
  have : ¬ (c = '-' ∧ d = '-' ∧ e = '>') := by
    intro h; exact hc h.1
  simp [esc2, this]

theorem esc2_dash (t : List Char) (h : (['-', '>'].isPrefixOf t) = false) :
    esc2 ('-' :: t) = '-' :: esc2 t := by
  rcases t with _ | ⟨d, t⟩
  · rfl
  rcases t with _ | ⟨e, t⟩
  · rfl
  by_cases hd : d = '-' ∧ e = '>'
  · obtain ⟨h1, h2⟩ := hd
    subst h1; subst h2
    simp [List.isPrefixOf] at h
  · simp [esc2, hd]

theorem esc2_hit : ∀ t, esc2 ('-' :: '-' :: '>' :: t) =
    '-' :: ' ' :: '-' :: '>' :: esc2 t := by
  intro t; simp [esc2]

theorem une1_lit (c : Char) (hc : c ≠ '<') : ∀ t, une1 (c :: t) = c :: une1 t := by
  intro t
  rcases t with _ | ⟨d, t⟩
  · rfl
  rcases t with _ | ⟨e, t⟩
  · rfl
  rcases t with _ | ⟨f, t⟩
  · rfl
  rcases t with _ | ⟨g, t⟩
  · rfl
  have : ¬ (c = '<' ∧ d = '!' ∧ e = '-' ∧ f = ' ' ∧ g = '-') := by
    intro h; exact hc h.1
  simp [une1, this]

theorem une1_lt (t : List Char) (h : (['!', '-', ' ', '-'].isPrefixOf t) = false) :
    une1 ('<' :: t) = '<' :: une1 t := by
  rcases t with _ | ⟨d, t⟩
  · rfl
  rcases t with _ | ⟨e, t⟩
  · rfl
  rcases t with _ | ⟨f, t⟩
  · rfl
  rcases t with _ | ⟨g, t⟩
  · rfl
  by_cases hd : d = '!' ∧ e = '-' ∧ f = ' ' ∧ g = '-'
  · obtain ⟨h1, h2, h3, h4⟩ := hd
    subst h1; subst h2; subst h3; subst h4
    simp [List.isPrefixOf] at h
  · simp [une1, hd]

theorem une1_hit : ∀ t, une1 ('<' :: '!' :: '-' :: ' ' :: '-' :: t) =
    '<' :: '!' :: '-' :: '-' :: une1 t := by
  intro t; simp [une1]

theorem une2_lit (c : Char) (hc : c ≠ '-') : ∀ t, une2 (c :: t) = c :: une2 t := by
  intro t
  rcases t with _ | ⟨d, t⟩
  · rfl
  rcases t with _ | ⟨e, t⟩
  · rfl
  rcases t with _ | ⟨f, t⟩
  · rfl
  have : ¬ (c = '-' ∧ d = ' ' ∧ e = '-' ∧ f = '>') := by
    intro h; exact hc h.1
  simp [une2, this]

theorem une2_dash (t : List Char) (h : ([' ', '-', '>'].isPrefixOf t) = false) :
    une2 ('-' :: t) = '-' :: une2 t := by
  rcases t with _ | ⟨d, t⟩
  · rfl
  rcases t with _ | ⟨e, t⟩
  · rfl
  rcases t with _ | ⟨f, t⟩
  · rfl
  by_cases hd : d = ' ' ∧ e = '-' ∧ f = '>'
  · obtain ⟨h1, h2, h3⟩ := hd
    subst h1; subst h2; subst h3
    simp [List.isPrefixOf] at h
  · simp [une2, hd]

theorem une2_hit : ∀ t, une2 ('-' :: ' ' :: '-' :: '>' :: t) =
    '-' :: '-' :: '>' :: une2 t := by
  intro t; simp [une2]

/-! ### Head and prefix transfer facts

Each replace pass preserves the head character of its input, and for the
specific short windows the round-trip argument inspects, the presence of
a window as a prefix can be transferred through a pass. -/

theorem pf_single (a : Char) : ∀ l, ([a].isPrefixOf l) = (some a == l.head?) := by
  intro l; rcases l with _ | ⟨b, l⟩ <;> simp [List.isPrefixOf]

theorem esc1_nomatch {c d e f : Char} {t : List Char}
    (hp : ¬ (c = '<' ∧ d = '!' ∧ e = '-' ∧ f = '-')) :
    esc1 (c :: d :: e :: f :: t) = c :: esc1 (d :: e :: f :: t) := by
  simp [esc1, hp]

theorem esc2_nomatch {c d e : Char} {t : List Char}
    (hp : ¬ (c = '-' ∧ d = '-' ∧ e = '>')) :
    esc2 (c :: d :: e :: t) = c :: esc2 (d :: e :: t) := by
  simp [esc2, hp]

theorem une1_nomatch {c d e f g : Char} {t : List Char}
    (hp : ¬ (c = '<' ∧ d = '!' ∧ e = '-' ∧ f = ' ' ∧ g = '-')) :
    une1 (c :: d :: e :: f :: g :: t) = c :: une1 (d :: e :: f :: g :: t) := by
  simp [une1, hp]

theorem une2_nomatch {c d e f : Char} {t : List Char}
    (hp : ¬ (c = '-' ∧ d = ' ' ∧ e = '-' ∧ f = '>')) :
    une2 (c :: d :: e :: f :: t) = c :: une2 (d :: e :: f :: t) := by
  simp [une2, hp]

theorem esc1_head : ∀ t, (esc1 t).head? = t.head? := by
  intro t
  rcases t with _ | ⟨c, t⟩
  · rfl
  rcases t with _ | ⟨d, t⟩
  · rfl
  rcases t with _ | ⟨e, t⟩
  · rfl
  rcases t with _ | ⟨f, t⟩
  · rfl
  by_cases hp : c = '<' ∧ d = '!' ∧ e = '-' ∧ f = '-'
  · obtain ⟨h1, h2, h3, h4⟩ := hp; subst h1; subst h2; subst h3; subst h4
    simp [esc1]
  · simp [esc1, hp]

theorem esc2_head : ∀ t, (esc2 t).head? = t.head? := by
  intro t
  rcases t with _ | ⟨c, t⟩
  · rfl
  rcases t with _ | ⟨d, t⟩
  · rfl
  rcases t with _ | ⟨e, t⟩
  · rfl
  by_cases hp : c = '-' ∧ d = '-' ∧ e = '>'
  · obtain ⟨h1, h2, h3⟩ := hp; subst h1; subst h2; subst h3
    simp [esc2]
  · simp [esc2, hp]

theorem une1_head : ∀ t, (une1 t).head? = t.head? := by
  intro t
  rcases t with _ | ⟨c, t⟩
  · rfl
  rcases t with _ | ⟨d, t⟩
  · rfl
  rcases t with _ | ⟨e, t⟩
  · rfl
  rcases t with _ | ⟨f, t⟩
  · rfl
  rcases t with _ | ⟨g, t⟩
  · rfl
  by_cases hp : c = '<' ∧ d = '!' ∧ e = '-' ∧ f = ' ' ∧ g = '-'
  · obtain ⟨h1, h2, h3, h4, h5⟩ := hp; subst h1; subst h2; subst h3; subst h4; subst h5
    simp [une1]
  · simp [une1, hp]

theorem esc1_pf_arrow : ∀ t, (['-', '>'].isPrefixOf (esc1 t)) = (['-', '>'].isPrefixOf t) := by
  intro t
  rcases t with _ | ⟨c, t⟩
  · rfl
  rcases t with _ | ⟨d, t⟩
  · rfl
  rcases t with _ | ⟨e, t⟩
  · rfl
  rcases t with _ | ⟨f, t⟩
  · rfl
  by_cases hp : c = '<' ∧ d = '!' ∧ e = '-' ∧ f = '-'
  · obtain ⟨h1, h2, h3, h4⟩ := hp; subst h1; subst h2; subst h3; subst h4
    simp [esc1, List.isPrefixOf]
  · rw [esc1_nomatch hp]
    simp [List.isPrefixOf, pf_single, esc1_head]

theorem esc1_pf_sd : ∀ t, ([' ', '-'].isPrefixOf (esc1 t)) = ([' ', '-'].isPrefixOf t) := by
  intro t
  rcases t with _ | ⟨c, t⟩
  · rfl
  rcases t with _ | ⟨d, t⟩
  · rfl
  rcases t with _ | ⟨e, t⟩
  · rfl
  rcases t with _ | ⟨f, t⟩
  · rfl
  by_cases hp : c = '<' ∧ d = '!' ∧ e = '-' ∧ f = '-'
  · obtain ⟨h1, h2, h3, h4⟩ := hp; subst h1; subst h2; subst h3; subst h4
    simp [esc1, List.isPrefixOf]
  · rw [esc1_nomatch hp]
    simp [List.isPrefixOf, pf_single, esc1_head]

theorem esc1_pf_ddg : ∀ t, (['-', '-', '>'].isPrefixOf (esc1 t)) = (['-', '-', '>'].isPrefixOf t) := by
  intro t
  rcases t with _ | ⟨c, t⟩
  · rfl
  rcases t with _ | ⟨d, t⟩
  · rfl
  rcases t with _ | ⟨e, t⟩
  · rfl
  rcases t with _ | ⟨f, t⟩
  · rfl
  by_cases hp : c = '<' ∧ d = '!' ∧ e = '-' ∧ f = '-'
  · obtain ⟨h1, h2, h3, h4⟩ := hp; subst h1; subst h2; subst h3; subst h4
    simp [esc1, List.isPrefixOf]
  · rw [esc1_nomatch hp]
    simp [List.isPrefixOf, esc1_pf_arrow]

theorem esc1_pf_dsd : ∀ t, (['-', ' ', '-'].isPrefixOf (esc1 t)) = (['-', ' ', '-'].isPrefixOf t) := by
  intro t
  rcases t with _ | ⟨c, t⟩
  · rfl
  rcases t with _ | ⟨d, t⟩
  · rfl
  rcases t with _ | ⟨e, t⟩
  · rfl
  rcases t with _ | ⟨f, t⟩
  · rfl
  by_cases hp : c = '<' ∧ d = '!' ∧ e = '-' ∧ f = '-'
  · obtain ⟨h1, h2, h3, h4⟩ := hp; subst h1; subst h2; subst h3; subst h4
    simp [esc1, List.isPrefixOf]
  · rw [esc1_nomatch hp]
    simp [List.isPrefixOf, esc1_pf_sd]

theorem esc1_pf_sparrow : ∀ t, ([' ', '-', '>'].isPrefixOf (esc1 t)) = ([' ', '-', '>'].isPrefixOf t) := by
  intro t
  rcases t with _ | ⟨c, t⟩
  · rfl
  rcases t with _ | ⟨d, t⟩
  · rfl
  rcases t with _ | ⟨e, t⟩
  · rfl
  rcases t with _ | ⟨f, t⟩
  · rfl
  by_cases hp : c = '<' ∧ d = '!' ∧ e = '-' ∧ f = '-'
  · obtain ⟨h1, h2, h3, h4⟩ := hp; subst h1; subst h2; subst h3; subst h4
    simp [esc1, List.isPrefixOf]
  · rw [esc1_nomatch hp]
    simp [List.isPrefixOf, esc1_pf_arrow]

theorem esc1_pf_bang_ddg : ∀ t, (['!', '-', '-', '>'].isPrefixOf (esc1 t)) = (['!', '-', '-', '>'].isPrefixOf t) := by
  intro t
  rcases t with _ | ⟨c, t⟩
  · rfl
  rcases t with _ | ⟨d, t⟩
  · rfl
  rcases t with _ | ⟨e, t⟩
  · rfl
  rcases t with _ | ⟨f, t⟩
  · rfl
  by_cases hp : c = '<' ∧ d = '!' ∧ e = '-' ∧ f = '-'
  · obtain ⟨h1, h2, h3, h4⟩ := hp; subst h1; subst h2; subst h3; subst h4
    simp [esc1, List.isPrefixOf]
  · rw [esc1_nomatch hp]
    simp [List.isPrefixOf, esc1_pf_ddg]

theorem esc1_pf_bang_dsd : ∀ t, (['!', '-', ' ', '-'].isPrefixOf (esc1 t)) = (['!', '-', ' ', '-'].isPrefixOf t) := by
  intro t
  rcases t with _ | ⟨c, t⟩
  · rfl
  rcases t with _ | ⟨d, t⟩
  · rfl
  rcases t with _ | ⟨e, t⟩
  · rfl
  rcases t with _ | ⟨f, t⟩
  · rfl
  by_cases hp : c = '<' ∧ d = '!' ∧ e = '-' ∧ f = '-'
  · obtain ⟨h1, h2, h3, h4⟩ := hp; subst h1; subst h2; subst h3; subst h4
    simp [esc1, List.isPrefixOf]
  · rw [esc1_nomatch hp]
    simp [List.isPrefixOf, esc1_pf_dsd]

theorem esc2_pf_arrow : ∀ t, (['-', '>'].isPrefixOf (esc2 t)) = (['-', '>'].isPrefixOf t) := by
  intro t
  rcases t with _ | ⟨c, t⟩
  · rfl
  rcases t with _ | ⟨d, t⟩
  · rfl
  rcases t with _ | ⟨e, t⟩
  · rfl
  by_cases hp : c = '-' ∧ d = '-' ∧ e = '>'
  · obtain ⟨h1, h2, h3⟩ := hp; subst h1; subst h2; subst h3
    simp [esc2, List.isPrefixOf]
  · rw [esc2_nomatch hp]
    simp [List.isPrefixOf, pf_single, pf_single, esc2_head]

theorem esc2_pf_sd : ∀ t, ([' ', '-'].isPrefixOf (esc2 t)) = ([' ', '-'].isPrefixOf t) := by
  intro t
  rcases t with _ | ⟨c, t⟩
  · rfl
  rcases t with _ | ⟨d, t⟩
  · rfl
  rcases t with _ | ⟨e, t⟩
  · rfl
  by_cases hp : c = '-' ∧ d = '-' ∧ e = '>'
  · obtain ⟨h1, h2, h3⟩ := hp; subst h1; subst h2; subst h3
    simp [esc2, List.isPrefixOf]
  · rw [esc2_nomatch hp]
    simp [List.isPrefixOf, pf_single, pf_single, esc2_head]

theorem esc2_pf_sparrow : ∀ t, ([' ', '-', '>'].isPrefixOf (esc2 t)) = ([' ', '-', '>'].isPrefixOf t) := by
  intro t
  rcases t with _ | ⟨c, t⟩
  · rfl
  rcases t with _ | ⟨d, t⟩
  · rfl
  rcases t with _ | ⟨e, t⟩
  · rfl
  by_cases hp : c = '-' ∧ d = '-' ∧ e = '>'
  · obtain ⟨h1, h2, h3⟩ := hp; subst h1; subst h2; subst h3
    simp [esc2, List.isPrefixOf]
  · rw [esc2_nomatch hp]
    simp [List.isPrefixOf, esc2_pf_arrow]

theorem une1_pf_arrow : ∀ t, (['-', '>'].isPrefixOf (une1 t)) = (['-', '>'].isPrefixOf t) := by
  intro t
  rcases t with _ | ⟨c, t⟩
  · rfl
  rcases t with _ | ⟨d, t⟩
  · rfl
  rcases t with _ | ⟨e, t⟩
  · rfl
  rcases t with _ | ⟨f, t⟩
  · rfl
  rcases t with _ | ⟨g, t⟩
  · rfl
  by_cases hp : c = '<' ∧ d = '!' ∧ e = '-' ∧ f = ' ' ∧ g = '-'
  · obtain ⟨h1, h2, h3, h4, h5⟩ := hp
    subst h1; subst h2; subst h3; subst h4; subst h5
    simp [une1, List.isPrefixOf]
  · rw [une1_nomatch hp]
    simp [List.isPrefixOf, pf_single, pf_single, une1_head]

theorem une1_pf_sparrow : ∀ t, ([' ', '-', '>'].isPrefixOf (une1 t)) = ([' ', '-', '>'].isPrefixOf t) := by
  intro t
  rcases t with _ | ⟨c, t⟩
  · rfl
  rcases t with _ | ⟨d, t⟩
  · rfl
  rcases t with _ | ⟨e, t⟩
  · rfl
  rcases t with _ | ⟨f, t⟩
  · rfl
  rcases t with _ | ⟨g, t⟩
  · rfl
  by_cases hp : c = '<' ∧ d = '!' ∧ e = '-' ∧ f = ' ' ∧ g = '-'
  · obtain ⟨h1, h2, h3, h4, h5⟩ := hp
    subst h1; subst h2; subst h3; subst h4; subst h5
    simp [une1, List.isPrefixOf]
  · rw [une1_nomatch hp]
    simp [List.isPrefixOf, une1_pf_arrow]

theorem esc2_pf_dsd_false : ∀ z, (['-', '-', '>'].isPrefixOf z) = false →
    (['-', ' ', '-'].isPrefixOf z) = false →
    (['-', ' ', '-'].isPrefixOf (esc2 z)) = false := by
  intro z h1 h2
  rcases z with _ | ⟨c, z⟩
  · simp [List.isPrefixOf, esc2]
  rcases z with _ | ⟨d, z⟩
  · simp [List.isPrefixOf, esc2]
  rcases z with _ | ⟨e, z⟩
  · simp [List.isPrefixOf, esc2]
  by_cases hp : c = '-' ∧ d = '-' ∧ e = '>'
  · obtain ⟨p1, p2, p3⟩ := hp; subst p1; subst p2; subst p3
    simp [List.isPrefixOf] at h1
  · rw [esc2_nomatch hp]
    simp only [List.isPrefixOf]
    rw [esc2_pf_sd]
    simpa [List.isPrefixOf] using h2

theorem esc2_pf_bang_false : ∀ z, (['!', '-', '-', '>'].isPrefixOf z) = false →
    (['!', '-', ' ', '-'].isPrefixOf z) = false →
    (['!', '-', ' ', '-'].isPrefixOf (esc2 z)) = false := by
  intro z h1 h2
  rcases z with _ | ⟨c, z⟩
  · simp [List.isPrefixOf, esc2]
  by_cases hc : c = '!'
  · subst hc
    have h1b : (['-', '-', '>'].isPrefixOf z) = false := by
      simpa [List.isPrefixOf] using h1
    have h2b : (['-', ' ', '-'].isPrefixOf z) = false := by
      simpa [List.isPrefixOf] using h2
    rw [esc2_lit '!' (by decide) z]
    simpa [List.isPrefixOf] using esc2_pf_dsd_false z h1b h2b
  · rcases z with _ | ⟨d, z⟩
    · simp [List.isPrefixOf, esc2, hc]
    rcases z with _ | ⟨e, z⟩
    · simp [List.isPrefixOf, esc2, hc]
    by_cases hp : c = '-' ∧ d = '-' ∧ e = '>'
    · obtain ⟨p1, p2, p3⟩ := hp; subst p1; subst p2; subst p3
      simp [List.isPrefixOf, esc2]
    · rw [esc2_nomatch hp]
      have hbc : (('!' : Char) == c) = false := by
        simp [Ne.symm hc]
      simp [List.isPrefixOf, hbc]

/-! ### Substring facts -/

theorem hasSeq_tail {pat : List Char} {c : Char} {t : List Char}
    (h : hasSeq pat (c :: t) = false) : hasSeq pat t = false := by
  simp only [hasSeq, Bool.or_eq_false_iff] at h
  exact h.2

theorem hasSeq_pf {pat : List Char} {c : Char} {t : List Char}
    (h : hasSeq pat (c :: t) = false) : pat.isPrefixOf (c :: t) = false := by
  simp only [hasSeq, Bool.or_eq_false_iff] at h
  exact h.1

/-! ### Round-trip case steps

One lemma per shape of the head of the input string; each consumes the
round-trip equation for the remaining suffix. -/

theorem rtStepB (t : List Char) (IHt : une2 (une1 (esc2 (esc1 t))) = t) :
    une2 (une1 (esc2 (esc1 ('<' :: '!' :: '-' :: '-' :: '-' :: '>' :: t)))) =
      '<' :: '!' :: '-' :: '-' :: '-' :: '>' :: t := by
  rw [esc1_hit, esc1_lit '-' (by decide), esc1_lit '>' (by decide),
    esc2_lit '<' (by decide), esc2_lit '!' (by decide),
    esc2_dash (' ' :: '-' :: '-' :: '>' :: esc1 t) (by simp [List.isPrefixOf]),
    esc2_lit ' ' (by decide), esc2_hit,
    une1_hit, une1_lit ' ' (by decide), une1_lit '-' (by decide),
    une1_lit '>' (by decide),
    une2_lit '<' (by decide), une2_lit '!' (by decide),
    une2_dash ('-' :: ' ' :: '-' :: '>' :: une1 (esc2 (esc1 t)))
      (by simp [List.isPrefixOf]),
    une2_hit, IHt]

theorem rtStepC (t : List Char)
    (harrow : (['-', '>'].isPrefixOf t) = false)
    (hsp : ([' ', '-', '>'].isPrefixOf t) = false)
    (IHt : une2 (une1 (esc2 (esc1 t))) = t) :
    une2 (une1 (esc2 (esc1 ('<' :: '!' :: '-' :: '-' :: t)))) =
      '<' :: '!' :: '-' :: '-' :: t := by
  rw [esc1_hit,
    esc2_lit '<' (by decide), esc2_lit '!' (by decide),
    esc2_dash (' ' :: '-' :: esc1 t) (by simp [List.isPrefixOf]),
    esc2_lit ' ' (by decide),
    esc2_dash (esc1 t) (by rw [esc1_pf_arrow]; exact harrow),
    une1_hit,
    une2_lit '<' (by decide), une2_lit '!' (by decide),
    une2_dash ('-' :: une1 (esc2 (esc1 t))) (by simp [List.isPrefixOf]),
    une2_dash (une1 (esc2 (esc1 t)))
      (by rw [une1_pf_sparrow, esc2_pf_sparrow, esc1_pf_sparrow]; exact hsp),
    IHt]

theorem rtStepD (t : List Char) (IHt : une2 (une1 (esc2 (esc1 t))) = t) :
    une2 (une1 (esc2 (esc1 ('-' :: '-' :: '>' :: t)))) = '-' :: '-' :: '>' :: t := by
  rw [esc1_lit '-' (by decide), esc1_lit '-' (by decide), esc1_lit '>' (by decide),
    esc2_hit,
    une1_lit '-' (by decide), une1_lit ' ' (by decide), une1_lit '-' (by decide),
    une1_lit '>' (by decide),
    une2_hit, IHt]

theorem rtStepE (t : List Char)
    (harrow : (['-', '>'].isPrefixOf t) = false)
    (hsp : ([' ', '-', '>'].isPrefixOf t) = false)
    (IHt : une2 (une1 (esc2 (esc1 t))) = t) :
    une2 (une1 (esc2 (esc1 ('-' :: t)))) = '-' :: t := by
  rw [esc1_lit '-' (by decide),
    esc2_dash (esc1 t) (by rw [esc1_pf_arrow]; exact harrow),
    une1_lit '-' (by decide),
    une2_dash (une1 (esc2 (esc1 t)))
      (by rw [une1_pf_sparrow, esc2_pf_sparrow, esc1_pf_sparrow]; exact hsp),
    IHt]

theorem rtStepF (t : List Char)
    (hbdd : (['!', '-', '-'].isPrefixOf t) = false)
    (hbds : (['!', '-', ' ', '-'].isPrefixOf t) = false)
    (IHt : une2 (une1 (esc2 (esc1 t))) = t) :
    une2 (une1 (esc2 (esc1 ('<' :: t)))) = '<' :: t := by
  have hbddg : (['!', '-', '-', '>'].isPrefixOf t) = false := by
    rcases t with _ | ⟨c, t⟩
    · rfl
    rcases t with _ | ⟨d, t⟩
    · simp [List.isPrefixOf]
    rcases t with _ | ⟨e, t⟩
    · simp [List.isPrefixOf]
    cases hA : (('!' : Char) == c) <;> cases hB : (('-' : Char) == d) <;>
      cases hC : (('-' : Char) == e) <;> simp_all [List.isPrefixOf]
  rw [esc1_lt t hbdd,
    esc2_lit '<' (by decide),
    une1_lt (esc2 (esc1 t))
      (esc2_pf_bang_false (esc1 t)
        (by rw [esc1_pf_bang_ddg]; exact hbddg)
        (by rw [esc1_pf_bang_dsd]; exact hbds)),
    une2_lit '<' (by decide), IHt]

theorem rtStepG (c : Char) (t : List Char)
    (hc1 : c ≠ '<') (hc2 : c ≠ '-')
    (IHt : une2 (une1 (esc2 (esc1 t))) = t) :
    une2 (une1 (esc2 (esc1 (c :: t)))) = c :: t := by
  rw [esc1_lit c hc1, esc2_lit c hc2, une1_lit c hc1, une2_lit c hc2, IHt]

theorem pf2_dest (a b : Char) : ∀ t, ([a, b].isPrefixOf t) = true → ∃ u, t = a :: b :: u := by
  intro t h
  rcases t with _ | ⟨x, t⟩
  · simp [List.isPrefixOf] at h
  rcases t with _ | ⟨y, t⟩
  · simp [List.isPrefixOf] at h
  simp only [List.isPrefixOf, Bool.and_eq_true, beq_iff_eq] at h
  obtain ⟨h1, h2, -⟩ := h
  subst h1; subst h2
  exact ⟨t, rfl⟩

theorem pf3_dest (a b c : Char) : ∀ t, ([a, b, c].isPrefixOf t) = true → ∃ u, t = a :: b :: c :: u := by
  intro t h
  rcases t with _ | ⟨x, t⟩
  · simp [List.isPrefixOf] at h
  rcases t with _ | ⟨y, t⟩
  · simp [List.isPrefixOf] at h
  rcases t with _ | ⟨z, t⟩
  · simp [List.isPrefixOf] at h
  simp only [List.isPrefixOf, Bool.and_eq_true, beq_iff_eq] at h
  obtain ⟨h1, h2, h3, -⟩ := h
  subst h1; subst h2; subst h3
  exact ⟨t, rfl⟩

/-- Main round-trip induction: on any string in which neither placeholder
`<!- -` nor `- ->` occurs, un-escaping undoes escaping. -/
theorem pyRoundTripAux : ∀ (n : Nat) (s : List Char), s.length ≤ n →
    hasSeq ['<', '!', '-', ' ', '-'] s = false →
    hasSeq ['-', ' ', '-', '>'] s = false →
    une2 (une1 (esc2 (esc1 s))) = s := by
  intro n
  induction n with
  | zero =>
    intro s hs _ _
    have hnil : s = [] := List.length_eq_zero.mp (Nat.le_zero.mp hs)
    subst hnil; rfl
  | succ n ih =>
    intro s hs h1 h2
    rcases s with _ | ⟨c, t⟩
    · rfl
    have hlt : t.length ≤ n := by
      simp only [List.length_cons] at hs; omega
    by_cases hc1 : c = '<'
    · subst hc1
      cases hbdd : (['!', '-', '-'].isPrefixOf t) with
      | false =>
        have hbds : (['!', '-', ' ', '-'].isPrefixOf t) = false := by
          simpa [List.isPrefixOf] using hasSeq_pf h1
        exact rtStepF t hbdd hbds (ih t hlt (hasSeq_tail h1) (hasSeq_tail h2))
      | true =>
        obtain ⟨t3, rfl⟩ := pf3_dest '!' '-' '-' t hbdd
        have hlt3 : t3.length ≤ n := by
          simp only [List.length_cons] at hs; omega
        have h1t : hasSeq ['<', '!', '-', ' ', '-'] t3 = false :=
          hasSeq_tail (hasSeq_tail (hasSeq_tail (hasSeq_tail h1)))
        have h2t : hasSeq ['-', ' ', '-', '>'] t3 = false :=
          hasSeq_tail (hasSeq_tail (hasSeq_tail (hasSeq_tail h2)))
        cases hD : (['-', '>'].isPrefixOf t3) with
        | true =>
          obtain ⟨t2, rfl⟩ := pf2_dest '-' '>' t3 hD
          have hlt2 : t2.length ≤ n := by
            simp only [List.length_cons] at hs; omega
          exact rtStepB t2 (ih t2 hlt2 (hasSeq_tail (hasSeq_tail h1t))
            (hasSeq_tail (hasSeq_tail h2t)))
        | false =>
          have hsp : ([' ', '-', '>'].isPrefixOf t3) = false := by
            simpa [List.isPrefixOf] using
              hasSeq_pf (hasSeq_tail (hasSeq_tail (hasSeq_tail h2)))
          exact rtStepC t3 hD hsp (ih t3 hlt3 h1t h2t)
    · by_cases hc2 : c = '-'
      · subst hc2
        cases hD : (['-', '>'].isPrefixOf t) with
        | true =>
          obtain ⟨t2, rfl⟩ := pf2_dest '-' '>' t hD
          have hlt2 : t2.length ≤ n := by
            simp only [List.length_cons] at hs; omega
          exact rtStepD t2 (ih t2 hlt2
            (hasSeq_tail (hasSeq_tail (hasSeq_tail h1)))
            (hasSeq_tail (hasSeq_tail (hasSeq_tail h2))))
        | false =>
          have hsp : ([' ', '-', '>'].isPrefixOf t) = false := by
            simpa [List.isPrefixOf] using hasSeq_pf h2
          exact rtStepE t hD hsp (ih t hlt (hasSeq_tail h1) (hasSeq_tail h2))
      · exact rtStepG c t hc1 hc2 (ih t hlt (hasSeq_tail h1) (hasSeq_tail h2))

/-- C1 (counterexample): the escape/un-escape composition of
`save_metadata`/`load_metadata` is NOT the identity on all strings.  On
the string `<!- -` (the placeholder itself) escaping is a no-op but
un-escaping rewrites it to `<!--`, and on `- ->` un-escaping rewrites it
to `-->`. -/
theorem C1_counterexample :
    pyUnescape (pyEscape ['<', '!', '-', ' ', '-']) ≠ ['<', '!', '-', ' ', '-'] ∧
    pyUnescape (pyEscape ['-', ' ', '-', '>']) ≠ ['-', ' ', '-', '>'] := by
  constructor <;> decide

/-- C1 (amended): for every string in which neither placeholder sequence
`<!- -` nor `- ->` occurs (in particular every string built from any
combination of `<!--`, `-->` and bare `--` that avoids the placeholders),
applying the snapshot-escaping substitution of `save_metadata` and then
the inverse substitution of `load_metadata` yields the string
unchanged. -/
theorem C1_escape_unescape_id (s : List Char)
    (h1 : hasSeq ['<', '!', '-', ' ', '-'] s = false)
    (h2 : hasSeq ['-', ' ', '-', '>'] s = false) :
    pyUnescape (pyEscape s) = s :=
  pyRoundTripAux s.length s le_rfl h1 h2

/-- C1 witness: the round-trip theorem applied to a concrete string
containing `<!--`, `-->` and a bare `--`. -/
theorem C1_escape_unescape_id_witness :
    hasSeq ['<', '!', '-', ' ', '-'] ("a <!-- b --> c -- d").data = false ∧
    hasSeq ['-', ' ', '-', '>'] ("a <!-- b --> c -- d").data = false ∧
    pyUnescape (pyEscape ("a <!-- b --> c -- d").data) = ("a <!-- b --> c -- d").data :=
  ⟨by decide, by decide,
    C1_escape_unescape_id ("a <!-- b --> c -- d").data (by decide) (by decide)⟩

/-! ## Schema registry

One constructor per `_NodeElement` subclass of `src/nodes.py` (plus
`NodeComment`).  `NodeConfigDependencies` and
`NodeConfigNestedDependencies` share the XML tag `dependencies` but are
distinct Python classes, hence distinct constructors; `type(x) == type(y)`
in the source is equality of these constructors. -/

inductive NodeType where
| comment
| infoRoot
| infoName
| infoAuthor
| infoVersion
| infoID
| infoWebsite
| infoDescription
| infoGroup
| infoElement
| configRoot
| configModName
| configModImage
| configModDepend
| configReqFiles
| configInstallSteps
| configCondInstall
| configDependFile
| configDependFlag
| configDependGame
| configFile
| configFolder
| configPatterns
| configPattern
| configFiles
| configDependencies
| configNestedDependencies
| configInstallStep
| configVisible
| configOptGroups
| configGroup
| configPlugins
| configPlugin
| configPluginDescription
| configImage
| configConditionFlags
| configTypeDesc
| configFlag
| configDependencyType
| configDefaultType
| configType
| configInstallPatterns
| configInstallPattern
deriving DecidableEq, Repr

/-- The `allowed_children` tuple passed to `init` by each subclass
(`()` when the subclass passes none). -/
def NodeType.allowed_children : NodeType → List NodeType
| .infoRoot => [.infoName, .infoAuthor, .infoDescription, .infoID, .infoGroup, .infoVersion, .infoWebsite]
| .infoGroup => [.infoElement]
| .configRoot => [.configModName, .configModImage, .configModDepend, .configInstallSteps, .configReqFiles, .configCondInstall]
| .configModDepend => [.configDependFile, .configDependFlag, .configDependGame, .configNestedDependencies]
| .configReqFiles => [.configFile, .configFolder]
| .configInstallSteps => [.configInstallStep]
| .configCondInstall => [.configPatterns]
| .configPatterns => [.configPattern]
| .configPattern => [.configFiles, .configDependencies]
| .configFiles => [.configFile, .configFolder]
| .configDependencies => [.configDependFile, .configDependFlag, .configDependGame, .configNestedDependencies]
| .configNestedDependencies => [.configDependFile, .configDependFlag, .configDependGame, .configNestedDependencies]
| .configInstallStep => [.configVisible, .configOptGroups]
| .configVisible => [.configDependFile, .configDependFlag, .configDependGame, .configNestedDependencies]
| .configOptGroups => [.configGroup]
| .configGroup => [.configPlugins]
| .configPlugins => [.configPlugin]
| .configPlugin => [.configPluginDescription, .configImage, .configFiles, .configConditionFlags, .configTypeDesc]
| .configConditionFlags => [.configFlag]
| .configTypeDesc => [.configDependencyType, .configType]
| .configDependencyType => [.configInstallPatterns, .configDefaultType]
| .configInstallPatterns => [.configInstallPattern]
| .configInstallPattern => [.configType, .configDependencies]
| _ => []

/-- The `allowed_instances` argument passed to `init` (0 means
unbounded; `NodeComment._init` sets 0). -/
def NodeType.allowed_instances : NodeType → Nat
| .comment => 0
| .infoElement => 0
| .configDependFile => 0
| .configDependFlag => 0
| .configFile => 0
| .configFolder => 0
| .configPattern => 0
| .configNestedDependencies => 0
| .configInstallStep => 0
| .configGroup => 0
| .configPlugin => 0
| .configFlag => 0
| .configInstallPattern => 0
| _ => 1

/-- The `sort_order` argument passed to `init` (default `"0"`). -/
def NodeType.sort_order : NodeType → String
| .configModName => "1"
| .configModImage => "2"
| .configModDepend => "3"
| .configReqFiles => "4"
| .configInstallSteps => "5"
| .configCondInstall => "6"
| .configFiles => "3"
| .configDependencies => "1"
| .configVisible => "1"
| .configOptGroups => "2"
| .configPluginDescription => "1"
| .configImage => "2"
| .configConditionFlags => "3"
| .configTypeDesc => "4"
| .configDefaultType => "1"
| .configType => "2"
| .configInstallPatterns => "2"
| _ => "0"

/-- Whether the subclass declares a `"<node_text>"` property. -/
def NodeType.hasNodeText : NodeType → Bool
| .comment => true
| .infoName => true
| .infoAuthor => true
| .infoVersion => true
| .infoID => true
| .infoWebsite => true
| .infoDescription => true
| .infoElement => true
| .configModName => true
| .configPluginDescription => true
| .configFlag => true
| _ => false

/-- The `name` argument passed to `init` (the type's default display
label). -/
def NodeType.dispName : NodeType → String
| .comment => "Comment"
| .infoRoot => "Info"
| .infoName => "Name"
| .infoAuthor => "Author"
| .infoVersion => "Version"
| .infoID => "ID"
| .infoWebsite => "Website"
| .infoDescription => "Description"
| .infoGroup => "Categories Group"
| .infoElement => "Category"
| .configRoot => "Config"
| .configModName => "Name"
| .configModImage => "Image"
| .configModDepend => "Mod Dependencies"
| .configReqFiles => "Mod Requirements"
| .configInstallSteps => "Installation Steps"
| .configCondInstall => "Conditional Installation"
| .configDependFile => "File Dependency"
| .configDependFlag => "Flag Dependency"
| .configDependGame => "Game Dependency"
| .configFile => "File"
| .configFolder => "Folder"
| .configPatterns => "Patterns"
| .configPattern => "Pattern"
| .configFiles => "Files"
| .configDependencies => "Dependencies"
| .configNestedDependencies => "Dependencies"
| .configInstallStep => "Install Step"
| .configVisible => "Visibility"
| .configOptGroups => "Option Group"
| .configGroup => "Group"
| .configPlugins => "Plugins"
| .configPlugin => "Plugin"
| .configPluginDescription => "Description"
| .configImage => "Image"
| .configConditionFlags => "Flags"
| .configTypeDesc => "Type Descriptor"
| .configFlag => "Flag"
| .configDependencyType => "Dependency Type"
| .configDefaultType => "Default Type"
| .configType => "Type"
| .configInstallPatterns => "Patterns"
| .configInstallPattern => "Pattern"

/-! ## Tree nodes and structural operations -/

/-- Structural projection of a document node: its Python class
(`NodeType`), its `user_sort_order` string, and its lxml children in
document order (comments included, as in lxml iteration). -/
inductive Node where
| mk (ty : NodeType) (uso : String) (children : List Node)

mutual
def nodeDecEq : (a b : Node) → Decidable (a = b)
| .mk t1 u1 c1, .mk t2 u2 c2 =>
  if h1 : t1 = t2 then
    if h2 : u1 = u2 then
      match nodeDecEqL c1 c2 with
      | isTrue h3 => isTrue (by rw [h1, h2, h3])
      | isFalse h3 => isFalse (fun h => by cases h; exact h3 rfl)
    else isFalse (fun h => by cases h; exact h2 rfl)
  else isFalse (fun h => by cases h; exact h1 rfl)
def nodeDecEqL : (a b : List Node) → Decidable (a = b)
| [], [] => isTrue rfl
| [], _ :: _ => isFalse (by intro h; cases h)
| _ :: _, [] => isFalse (by intro h; cases h)
| a :: as, b :: bs =>
  match nodeDecEq a b with
  | isTrue h1 =>
    match nodeDecEqL as bs with
    | isTrue h2 => isTrue (by rw [h1, h2])
    | isFalse h2 => isFalse (fun h => by cases h; exact h2 rfl)
  | isFalse h1 => isFalse (fun h => by cases h; exact h1 rfl)
end

instance : DecidableEq Node := nodeDecEq

def Node.ty : Node → NodeType
| .mk t _ _ => t

def Node.uso : Node → String
| .mk _ u _ => u

def Node.children : Node → List Node
| .mk _ _ c => c

@[simp] theorem Node.ty_mk (t : NodeType) (u : String) (c : List Node) :
    (Node.mk t u c).ty = t := rfl

@[simp] theorem Node.uso_mk (t : NodeType) (u : String) (c : List Node) :
    (Node.mk t u c).uso = u := rfl

@[simp] theorem Node.children_mk (t : NodeType) (u : String) (c : List Node) :
    (Node.mk t u c).children = c := rfl

/-- Number of children of `p` whose Python class equals `ty`
(the `type(item) == type(child)` loop of `can_add_child`). -/
def countType (cs : List Node) (ty : NodeType) : Nat :=
  cs.countP (fun x => decide (x.ty = ty))

/-- `_NodeElement.can_add_child` (nodes.py, lines 130-146): reject when the
candidate's class has a nonzero instance budget already exhausted among
the current children, then accept exactly the classes in
`allowed_children`, with comment candidates always accepted. -/
def can_add_child_base (p c : Node) : Bool :=
  if c.ty.allowed_instances ≠ 0 ∧ countType p.children c.ty ≥ c.ty.allowed_instances
  then false
  else decide (c.ty ∈ p.ty.allowed_children) || decide (c.ty = .comment)

/-- Dynamic dispatch of `can_add_child`: `NodeConfigTypeDesc` (lines
1231-1235) additionally requires `len(self) < 1`. -/
def can_add_child (p c : Node) : Bool :=
  if p.ty = .configTypeDesc
  then can_add_child_base p c && decide (p.children.length < 1)
  else can_add_child_base p c

/-- `_NodeElement.add_child` (lines 148-158): append the child when
`can_add_child` accepts it, otherwise do nothing.  (The
`write_attribs`/`load_metadata` calls on the accepted child touch
attribute and metadata state outside this structural projection.) -/
def add_child (p c : Node) : Node :=
  if can_add_child p c then .mk p.ty p.uso (p.children ++ [c]) else p

/-- `_NodeElement.remove_child` (lines 160-168): remove the child if
present, otherwise do nothing. -/
def remove_child (p c : Node) : Node :=
  if c ∈ p.children then .mk p.ty p.uso (p.children.erase c) else p

/-- C2: when the candidate's type has instance budget `N > 0` and `N`
children of that exact type are already present, `can_add_child` returns
false and `add_child` leaves the parent (hence the tree) unchanged. -/
theorem C2_cardinality_enforced (p c : Node) (N : Nat)
    (hN : c.ty.allowed_instances = N) (hpos : 0 < N)
    (hcount : countType p.children c.ty = N) :
    can_add_child p c = false ∧ add_child p c = p := by
  have hbase : can_add_child_base p c = false := by
    have hcond : c.ty.allowed_instances ≠ 0 ∧
        countType p.children c.ty ≥ c.ty.allowed_instances := by
      rw [hN, hcount]; omega
    simp [can_add_child_base, hcond]
  have hcan : can_add_child p c = false := by
    by_cases hty : p.ty = .configTypeDesc <;> simp [can_add_child, hty, hbase]
  refine ⟨hcan, ?_⟩
  simp [add_child, hcan]

/-- C2 witness: an `Info` root already holding its single allowed `Name`
child rejects a second `Name` child and is left unchanged. -/
theorem C2_cardinality_enforced_witness :
    can_add_child (Node.mk .infoRoot "0000000" [Node.mk .infoName "0000000" []])
        (Node.mk .infoName "0000000" []) = false ∧
    add_child (Node.mk .infoRoot "0000000" [Node.mk .infoName "0000000" []])
        (Node.mk .infoName "0000000" []) =
      Node.mk .infoRoot "0000000" [Node.mk .infoName "0000000" []] :=
  C2_cardinality_enforced
    (Node.mk .infoRoot "0000000" [Node.mk .infoName "0000000" []])
    (Node.mk .infoName "0000000" []) 1 (by decide) (by decide) (by decide)

/-- Modelled from the claim's wording of C5 (not from the source), for
comparison with the source's `can_add_child`: membership in
`allowed_children` with comments always allowed, and the instance budget
not exhausted. -/
def can_add_child_claim (p c : Node) : Bool :=
  (decide (c.ty ∈ p.ty.allowed_children) || decide (c.ty = .comment)) &&
  (decide (c.ty.allowed_instances = 0) ||
    decide (countType p.children c.ty < c.ty.allowed_instances))

/-- C5 counterexample: for a `typeDescriptor` parent holding one comment
child and a `type` candidate, the claim's predicate accepts but the
source's `can_add_child` (through the `NodeConfigTypeDesc` override)
rejects, so the claimed equivalence fails. -/
theorem C5_counterexample :
    can_add_child (Node.mk .configTypeDesc "0000000" [Node.mk .comment "0000000" []])
        (Node.mk .configType "0000000" []) ≠
      can_add_child_claim
        (Node.mk .configTypeDesc "0000000" [Node.mk .comment "0000000" []])
        (Node.mk .configType "0000000" []) := by
  decide

/-- C5 (amended): `can_add_child` is a pure predicate returning true iff
the candidate's type is in `allowed_children` (comments always allowed),
the instance budget for its exact type is not exhausted, AND — the
`NodeConfigTypeDesc` override — a `typeDescriptor` parent has no children
at all. -/
theorem C5_can_add_child_characterization (p c : Node) :
    can_add_child p c = true ↔
      ((c.ty ∈ p.ty.allowed_children ∨ c.ty = .comment) ∧
        (c.ty.allowed_instances = 0 ∨
          countType p.children c.ty < c.ty.allowed_instances) ∧
        (p.ty = .configTypeDesc → p.children = [])) := by
  by_cases hinst : c.ty.allowed_instances ≠ 0 ∧
      countType p.children c.ty ≥ c.ty.allowed_instances
  · have hbase : can_add_child_base p c = false := by
      unfold can_add_child_base
      rw [if_pos hinst]
    have hcan : can_add_child p c = false := by
      by_cases hty : p.ty = .configTypeDesc <;> simp [can_add_child, hty, hbase]
    rw [hcan]
    simp only [Bool.false_eq_true, false_iff]
    rintro ⟨-, hbudget, -⟩
    obtain ⟨hh1, hh2⟩ := hinst
    rcases hbudget with h0 | hlt
    · exact hh1 h0
    · omega
  · have hbase : can_add_child_base p c =
        (decide (c.ty ∈ p.ty.allowed_children) || decide (c.ty = .comment)) := by
      unfold can_add_child_base
      rw [if_neg hinst]
    have hbudget : c.ty.allowed_instances = 0 ∨
        countType p.children c.ty < c.ty.allowed_instances := by
      rcases Decidable.em (c.ty.allowed_instances = 0) with h0 | h0
      · exact Or.inl h0
      · right
        rcases Decidable.em (countType p.children c.ty ≥ c.ty.allowed_instances) with hge | hge
        · exact absurd ⟨h0, hge⟩ hinst
        · omega
    by_cases hty : p.ty = .configTypeDesc
    · rw [can_add_child, if_pos hty, hbase]
      constructor
      · intro h
        simp only [Bool.and_eq_true, Bool.or_eq_true, decide_eq_true_eq] at h
        refine ⟨h.1, hbudget, fun _ => ?_⟩
        have := h.2
        exact List.length_eq_zero.mp (by omega)
      · rintro ⟨hmem, -, hemp⟩
        have : p.children = [] := hemp hty
        simp [this, hmem]
    · rw [can_add_child, if_neg hty, hbase]
      constructor
      · intro h
        simp only [Bool.or_eq_true, decide_eq_true_eq] at h
        exact ⟨h, hbudget, fun hh => absurd hh hty⟩
      · rintro ⟨hmem, -, -⟩
        simp [hmem]

/-- C6 counterexample: a `typeDescriptor` node whose only child is a
comment has no element children, yet `can_add_child` rejects a
`dependencyType` candidate, because the override's `len(self) < 1` check
counts comment children too. -/
theorem C6_counterexample :
    (∀ x ∈ (Node.mk .configTypeDesc "0000000"
        [Node.mk .comment "0000000" []]).children, x.ty = .comment) ∧
    can_add_child (Node.mk .configTypeDesc "0000000" [Node.mk .comment "0000000" []])
      (Node.mk .configDependencyType "0000000" []) = false := by
  decide

/-- C6 (amended): a `typeDescriptor` node with no children at all (the
emptiness check counts comments as well as elements) accepts a
`dependencyType` child; once that child is present a `type` child is
rejected and `add_child` is a no-op; after removing the `dependencyType`
child a `type` child is accepted again. -/
theorem C6_typeDescriptor_scenario (td dep typ : Node)
    (h1 : td.ty = .configTypeDesc) (h2 : td.children = [])
    (h3 : dep.ty = .configDependencyType) (h4 : typ.ty = .configType) :
    can_add_child td dep = true ∧
    (add_child td dep).children = [dep] ∧
    can_add_child (add_child td dep) typ = false ∧
    add_child (add_child td dep) typ = add_child td dep ∧
    (remove_child (add_child td dep) dep).children = [] ∧
    can_add_child (remove_child (add_child td dep) dep) typ = true := by
  have hcan1 : can_add_child td dep = true := by
    simp [can_add_child, can_add_child_base, h1, h2, h3, countType,
      NodeType.allowed_children, NodeType.allowed_instances]
  have hadd : add_child td dep = .mk td.ty td.uso [dep] := by
    simp [add_child, hcan1, h2]
  have hcan2 : can_add_child (add_child td dep) typ = false := by
    simp [hadd, can_add_child, h1]
  have hrem : remove_child (add_child td dep) dep = .mk td.ty td.uso [] := by
    simp [hadd, remove_child, List.erase_cons_head]
  have hcan2b : can_add_child (Node.mk td.ty td.uso [dep]) typ = false := by
    rw [← hadd]; exact hcan2
  have hnoop : add_child (add_child td dep) typ = add_child td dep := by
    rw [hadd]
    simp [add_child, hcan2b]
  refine ⟨hcan1, by simp [hadd], hcan2, hnoop, by simp [hrem], ?_⟩
  simp [hrem, can_add_child, can_add_child_base, h1, h4, countType,
    NodeType.allowed_children, NodeType.allowed_instances]

/-- C6 witness: the scenario at concrete fresh nodes. -/
theorem C6_typeDescriptor_scenario_witness :
    can_add_child (Node.mk .configTypeDesc "0000000" [])
      (Node.mk .configDependencyType "0000000" []) = true ∧
    (add_child (Node.mk .configTypeDesc "0000000" [])
      (Node.mk .configDependencyType "0000000" [])).children =
        [Node.mk .configDependencyType "0000000" []] ∧
    can_add_child (add_child (Node.mk .configTypeDesc "0000000" [])
        (Node.mk .configDependencyType "0000000" []))
      (Node.mk .configType "0000000" []) = false ∧
    add_child (add_child (Node.mk .configTypeDesc "0000000" [])
        (Node.mk .configDependencyType "0000000" []))
      (Node.mk .configType "0000000" []) =
      add_child (Node.mk .configTypeDesc "0000000" [])
        (Node.mk .configDependencyType "0000000" []) ∧
    (remove_child (add_child (Node.mk .configTypeDesc "0000000" [])
        (Node.mk .configDependencyType "0000000" []))
      (Node.mk .configDependencyType "0000000" [])).children = [] ∧
    can_add_child (remove_child (add_child (Node.mk .configTypeDesc "0000000" [])
        (Node.mk .configDependencyType "0000000" []))
      (Node.mk .configDependencyType "0000000" []))
      (Node.mk .configType "0000000" []) = true :=
  C6_typeDescriptor_scenario (Node.mk .configTypeDesc "0000000" [])
    (Node.mk .configDependencyType "0000000" [])
    (Node.mk .configType "0000000" []) rfl rfl rfl rfl

/-! ## Sort engine

`_NodeElement.sort` (nodes.py, lines 180-185):

    for parent in self.xpath('//*[./*]'):
        parent[:] = sorted(parent, key=lambda x: x.sort_order + "." + x.user_sort_order)

The xpath `'//*[./*]'` is an absolute path: evaluated from any element it
selects every element of the whole tree that has at least one element
child (comments are not elements), starting from the document root, not
from the invocation target.  Python `sorted` is a stable sort on the key
string `x.sort_order + "." + x.user_sort_order` compared as Python
strings (lexicographically by code point); a stable sort under a total
preorder has a unique result, so stable insertion sort models it
exactly.  Reordering one parent's children neither changes which parents
the xpath selects nor any child's key, so the loop equals a structural
recursion over the tree. -/

/-- Lexicographic comparison of key strings by code point, Python's
`<=` on `str`. -/
def keyLE : List Char → List Char → Bool
| [], _ => true
| _ :: _, [] => false
| a :: as, b :: bs => if a = b then keyLE as bs else decide (a < b)

theorem keyLE_total : ∀ a b, keyLE a b = true ∨ keyLE b a = true := by
  intro a
  induction a with
  | nil => intro b; left; rfl
  | cons x xs ih =>
    intro b
    cases b with
    | nil => right; rfl
    | cons y ys =>
      by_cases hxy : x = y
      · subst hxy
        rcases ih ys with h | h
        · left; simp [keyLE, h]
        · right; simp [keyLE, h]
      · rcases lt_or_gt_of_ne hxy with h | h
        · left; simp [keyLE, hxy, h]
        · right; simp [keyLE, Ne.symm hxy, h, not_lt_of_gt h]

theorem keyLE_trans : ∀ a b c, keyLE a b = true → keyLE b c = true → keyLE a c = true := by
  intro a
  induction a with
  | nil => intro b c _ _; rfl
  | cons x xs ih =>
    intro b c hab hbc
    cases b with
    | nil => simp [keyLE] at hab
    | cons y ys =>
      cases c with
      | nil => simp [keyLE] at hbc
      | cons z zs =>
        by_cases hxy : x = y <;> by_cases hyz : y = z
        · subst hxy hyz
          simp only [keyLE, if_pos rfl] at hab hbc ⊢
          exact ih ys zs hab hbc
        · subst hxy; simp_all [keyLE]
        · subst hyz; simp_all [keyLE]
        · simp only [keyLE, if_neg hxy] at hab
          simp only [keyLE, if_neg hyz] at hbc
          have hxz : x < z := lt_trans (of_decide_eq_true hab) (of_decide_eq_true hbc)
          simp [keyLE, ne_of_lt hxz, hxz]

/-- The composite sort key of a node:
`x.sort_order + "." + x.user_sort_order`. -/
def Node.sort_key (n : Node) : List Char := (n.ty.sort_order ++ "." ++ n.uso).data

/-- Total preorder on sibling nodes induced by the key strings. -/
def nle (a b : Node) : Prop := keyLE a.sort_key b.sort_key = true

instance nleDecidable : DecidableRel nle := fun a b => by
  unfold nle; infer_instance

instance nleTotal : IsTotal Node nle :=
  ⟨fun a b => keyLE_total a.sort_key b.sort_key⟩

instance nleTrans : IsTrans Node nle :=
  ⟨fun a b c => keyLE_trans a.sort_key b.sort_key c.sort_key⟩

/-- Whether a node is an XML element (matched by `*` in xpath), rather
than a comment. -/
def Node.isElem (n : Node) : Bool := decide (n.ty ≠ .comment)

mutual
/-- Effect of the `sort()` loop on the whole document: every element
with at least one element child has its full child list stably sorted by
`sort_key`; every other node keeps its children order.  (In lxml a
comment has no children, so the `ty ≠ comment` guard is vacuous on real
documents; it mirrors xpath `*` selecting only elements.) -/
def sortAll : Node → Node
| .mk ty uso cs =>
  if decide (ty ≠ .comment) && cs.any Node.isElem
  then .mk ty uso (List.insertionSort nle (sortAllL cs))
  else .mk ty uso (sortAllL cs)
def sortAllL : List Node → List Node
| [] => []
| c :: cs => sortAll c :: sortAllL cs
end

/-- `_NodeElement.sort` invoked on the node at path `x` inside `doc`:
because the xpath is absolute, the result is `sortAll doc` regardless of
the invocation target. -/
def sort (doc : Node) (_x : List Nat) : Node := sortAll doc

/-- Structural induction principle for `Node`. -/
theorem Node.indOn {P : Node → Prop}
    (h : ∀ ty uso cs, (∀ c ∈ cs, P c) → P (.mk ty uso cs)) : ∀ n, P n :=
fun n => Node.rec (motive_1 := P) (motive_2 := fun l => ∀ c ∈ l, P c)
  (fun ty uso cs ih => h ty uso cs ih)
  (fun c hc => absurd hc (List.not_mem_nil c))
  (fun {a} {as} ha has c hc =>
    match List.mem_cons.mp hc with
    | Or.inl he => he ▸ ha
    | Or.inr hm => has c hm) n

theorem sortAllL_eq_map : ∀ l, sortAllL l = l.map sortAll := by
  intro l
  induction l with
  | nil => rfl
  | cons c cs ih => simp [sortAllL, ih]

theorem sortAll_ty : ∀ n, (sortAll n).ty = n.ty := by
  intro n
  rcases n with ⟨ty, uso, cs⟩
  simp only [sortAll]
  split <;> rfl

theorem isElem_sortAll : ∀ n, (sortAll n).isElem = n.isElem := by
  intro n
  simp [Node.isElem, sortAll_ty]

theorem any_sortAllL : ∀ cs : List Node,
    (sortAllL cs).any Node.isElem = cs.any Node.isElem := by
  intro cs
  induction cs with
  | nil => rfl
  | cons a l ih =>
    simp only [sortAllL, List.any_cons, ih, isElem_sortAll]

theorem perm_any {l l' : List Node} (h : l.Perm l') (p : Node → Bool) :
    l.any p = l'.any p := by
  by_cases hl : l.any p = true
  · rw [hl]
    obtain ⟨x, hx, hpx⟩ := List.any_eq_true.mp hl
    exact (List.any_eq_true.mpr ⟨x, h.mem_iff.mp hx, hpx⟩).symm
  · have hl' : l'.any p ≠ true := by
      intro hcon
      obtain ⟨x, hx, hpx⟩ := List.any_eq_true.mp hcon
      exact hl (List.any_eq_true.mpr ⟨x, h.mem_iff.mpr hx, hpx⟩)
    simp only [Bool.not_eq_true] at hl hl'
    rw [hl, hl']

theorem map_fixed {f : Node → Node} : ∀ l : List Node,
    (∀ x ∈ l, f x = x) → l.map f = l := by
  intro l h
  induction l with
  | nil => rfl
  | cons a as ih =>
    simp only [List.map_cons]
    rw [h a (by simp), ih (fun x hx => h x (by simp [hx]))]

/-- Ascending-by-key check for one child list. -/
def chainSorted : List Node → Bool
| [] => true
| [_] => true
| a :: b :: l => decide (nle a b) && chainSorted (b :: l)

mutual
/-- Every element of the document with at least one element child has
its children in ascending `sort_key` order. -/
def allSorted : Node → Bool
| .mk ty _ cs =>
  (!(decide (ty ≠ .comment) && cs.any Node.isElem) || chainSorted cs) && allSortedL cs
def allSortedL : List Node → Bool
| [] => true
| c :: cs => allSorted c && allSortedL cs
end

theorem chainSorted_of_sorted : ∀ l : List Node, List.Sorted nle l → chainSorted l = true := by
  intro l h
  induction l with
  | nil => rfl
  | cons a l ih =>
    cases l with
    | nil => rfl
    | cons b m =>
      rw [List.sorted_cons] at h
      simp only [chainSorted, Bool.and_eq_true, decide_eq_true_eq]
      exact ⟨h.1 b (by simp), ih h.2⟩

theorem allSortedL_iff : ∀ l : List Node,
    allSortedL l = true ↔ ∀ c ∈ l, allSorted c = true := by
  intro l
  induction l with
  | nil => simp [allSortedL]
  | cons a m ih => simp [allSortedL, ih]

mutual
/-- `Reorders n n'`: the two trees have the same nodes with the same
types and user ranks, the same parent/child relationships, and each
node's child list in `n'` is a permutation of the corresponding child
list in `n` — i.e. `n'` differs from `n` only in sibling order. -/
inductive Reorders : Node → Node → Prop where
| node : ∀ ty u cs es ds, ReordersL cs es → es.Perm ds →
    Reorders (.mk ty u cs) (.mk ty u ds)
inductive ReordersL : List Node → List Node → Prop where
| nil : ReordersL [] []
| cons : ∀ a b l m, Reorders a b → ReordersL l m → ReordersL (a :: l) (b :: m)
end

theorem listReorders : ∀ l : List Node, (∀ c ∈ l, Reorders c (sortAll c)) →
    ReordersL l (sortAllL l) := by
  intro l h
  induction l with
  | nil => exact .nil
  | cons a m ih =>
    exact .cons a (sortAll a) m (sortAllL m) (h a (by simp))
      (ih (fun c hc => h c (by simp [hc])))

theorem sortAll_reorders : ∀ n, Reorders n (sortAll n) := by
  apply Node.indOn
  intro ty u cs ih
  have hl := listReorders cs ih
  by_cases hg : (decide (ty ≠ NodeType.comment) && cs.any Node.isElem) = true
  · have : sortAll (.mk ty u cs) = .mk ty u (List.insertionSort nle (sortAllL cs)) := by
      simp only [sortAll, hg, if_pos]
    rw [this]
    exact .node ty u cs (sortAllL cs) _ hl (List.perm_insertionSort nle (sortAllL cs)).symm
  · have : sortAll (.mk ty u cs) = .mk ty u (sortAllL cs) := by
      simp only [sortAll, hg, if_neg]
      simp at hg
      simp [hg]
    rw [this]
    exact .node ty u cs (sortAllL cs) _ hl (List.Perm.refl _)

theorem sortAll_allSorted : ∀ n, allSorted (sortAll n) = true := by
  apply Node.indOn
  intro ty u cs ih
  have hmem : ∀ x ∈ sortAllL cs, allSorted x = true := by
    intro x hx
    rw [sortAllL_eq_map] at hx
    obtain ⟨c, hc, rfl⟩ := List.mem_map.mp hx
    exact ih c hc
  by_cases hg : (decide (ty ≠ NodeType.comment) && cs.any Node.isElem) = true
  · have hdef : sortAll (.mk ty u cs) = .mk ty u (List.insertionSort nle (sortAllL cs)) := by
      simp only [sortAll, hg, if_pos]
    rw [hdef]
    simp only [allSorted, Bool.and_eq_true]
    constructor
    · have hchain : chainSorted (List.insertionSort nle (sortAllL cs)) = true :=
        chainSorted_of_sorted _ (List.sorted_insertionSort nle (sortAllL cs))
      simp [hchain]
    · rw [allSortedL_iff]
      intro x hx
      exact hmem x ((List.perm_insertionSort nle (sortAllL cs)).mem_iff.mp hx)
  · have hdef : sortAll (.mk ty u cs) = .mk ty u (sortAllL cs) := by
      simp only [sortAll, hg, if_neg]
      simp at hg
      simp [hg]
    rw [hdef]
    simp only [allSorted, Bool.and_eq_true]
    constructor
    · have hany := any_sortAllL cs
      have hgf : (decide (ty ≠ NodeType.comment) && cs.any Node.isElem) = false := by
        revert hg
        cases (decide (ty ≠ NodeType.comment) && cs.any Node.isElem) <;> simp
      rw [show (decide (ty ≠ NodeType.comment) && (sortAllL cs).any Node.isElem) =
          (decide (ty ≠ NodeType.comment) && cs.any Node.isElem) from by rw [hany],
        hgf]
      rfl
    · rw [allSortedL_iff]
      exact hmem

theorem sortAllL_fixed_of_sorted : ∀ l : List Node,
    (∀ x ∈ l, sortAll x = x) → sortAllL l = l := by
  intro l h
  rw [sortAllL_eq_map]
  exact map_fixed l h

theorem sortAll_idem : ∀ n, sortAll (sortAll n) = sortAll n := by
  apply Node.indOn
  intro ty u cs ih
  have hfix : ∀ x ∈ sortAllL cs, sortAll x = x := by
    intro x hx
    rw [sortAllL_eq_map] at hx
    obtain ⟨c, hc, rfl⟩ := List.mem_map.mp hx
    exact ih c hc
  by_cases hg : (decide (ty ≠ NodeType.comment) && cs.any Node.isElem) = true
  · have hdef : sortAll (.mk ty u cs) = .mk ty u (List.insertionSort nle (sortAllL cs)) := by
      simp only [sortAll, hg, if_pos]
    rw [hdef]
    have hfix2 : ∀ x ∈ List.insertionSort nle (sortAllL cs), sortAll x = x := by
      intro x hx
      exact hfix x ((List.perm_insertionSort nle (sortAllL cs)).mem_iff.mp hx)
    have hL : sortAllL (List.insertionSort nle (sortAllL cs)) =
        List.insertionSort nle (sortAllL cs) :=
      sortAllL_fixed_of_sorted _ hfix2
    have hany : (List.insertionSort nle (sortAllL cs)).any Node.isElem = cs.any Node.isElem := by
      rw [perm_any (List.perm_insertionSort nle (sortAllL cs)) Node.isElem]
      exact any_sortAllL cs
    have hg2 : (decide (ty ≠ NodeType.comment) &&
        (List.insertionSort nle (sortAllL cs)).any Node.isElem) = true := by
      rw [hany]; exact hg
    have : sortAll (.mk ty u (List.insertionSort nle (sortAllL cs))) =
        .mk ty u (List.insertionSort nle
          (sortAllL (List.insertionSort nle (sortAllL cs)))) := by
      simp only [sortAll, hg2, if_pos]
    rw [this, hL,
      List.Sorted.insertionSort_eq (List.sorted_insertionSort nle (sortAllL cs))]
  · have hdef : sortAll (.mk ty u cs) = .mk ty u (sortAllL cs) := by
      simp only [sortAll, hg, if_neg]
      simp at hg
      simp [hg]
    rw [hdef]
    have hany : (sortAllL cs).any Node.isElem = cs.any Node.isElem := any_sortAllL cs
    have hg2 : ¬ (decide (ty ≠ NodeType.comment) && (sortAllL cs).any Node.isElem) = true := by
      rw [hany]; exact hg
    have : sortAll (.mk ty u (sortAllL cs)) = .mk ty u (sortAllL (sortAllL cs)) := by
      simp only [sortAll, hg2, if_neg]
      simp at hg2
      simp [hg2]
    rw [this, sortAllL_fixed_of_sorted _ hfix]

/-- C3 counterexample: in a document whose root holds a leaf `Name` node
(path `[0]`) and a `Groups` node with two mis-ordered `element`
children, invoking `sort()` on the leaf `Name` node still reorders the
`Groups` node's children: the subtree rooted at the invocation target is
a single leaf, so the claim predicts the document is unchanged, yet the
document changes. -/
theorem C3_counterexample :
    (Node.mk .infoName "0000000" []).children = [] ∧
    sort (Node.mk .infoRoot "0000000"
      [Node.mk .infoName "0000000" [],
       Node.mk .infoGroup "0000000"
         [Node.mk .infoElement "0000002" [], Node.mk .infoElement "0000001" []]]) [0] ≠
    Node.mk .infoRoot "0000000"
      [Node.mk .infoName "0000000" [],
       Node.mk .infoGroup "0000000"
         [Node.mk .infoElement "0000002" [], Node.mk .infoElement "0000001" []]] := by
  exact ⟨rfl, by decide⟩

/-- C3 (amended): `sort()` invoked on any node X reorders the children
of every node of the WHOLE document (the xpath `'//*[./*]'` is absolute)
that has at least one element child, ascending by the composite key
(schema rank then user rank compared as strings); the result is
independent of the invocation target, so the operation is not confined
to the subtree rooted at X. -/
theorem C3_sort_whole_document (doc : Node) (x y : List Nat) :
    sort doc x = sort doc y ∧ allSorted (sort doc x) = true :=
  ⟨rfl, sortAll_allSorted doc⟩

/-- C7: calling `sort()` twice in succession (from any two invocation
targets) produces exactly the same tree as calling it once. -/
theorem C7_sort_idempotent (doc : Node) (x y : List Nat) :
    sort (sort doc x) y = sort doc x :=
  sortAll_idem doc

/-- C10: `sort()` neither creates, destroys nor reparents nodes: the
document after sorting is related to the one before by `Reorders`, i.e.
every node keeps its type and user rank, every node's child list is a
permutation of its previous child list (same parent for every node), and
only sibling order changes. -/
theorem C10_sort_reorders_only (doc : Node) (x : List Nat) :
    Reorders doc (sort doc x) :=
  sortAll_reorders doc

/-! ## Hiding (`set_hidden`) -/

/-- `_NodeElement.set_hidden` (nodes.py, lines 170-178).  `parent` is
`getparent()`: `none` for a document root, otherwise the parent's
`hidden_children` list.  `self.is_hidden = hide` is assigned first
(first component).  When `parent` is `none`, `self.getparent()
.hidden_children` raises `AttributeError`; when unhiding a node absent
from `hidden_children`, `list.remove` raises `ValueError`; both raises
are modelled as `none` in the second component, a successful update as
`some` of the new `hidden_children` list.  (The concluding
`save_metadata()` call on the parent touches metadata state outside this
projection.) -/
def set_hidden (parent : Option (List Node)) (self : Node) (hide : Bool) :
    Bool × Option (List Node) :=
  (hide,
    match parent with
    | none => none
    | some hc =>
      if hide then some (hc ++ [self])
      else if self ∈ hc then some (hc.erase self) else none)

/-- C9: `set_hidden` is partial exactly at the claimed boundary: it sets
`is_hidden` first, raises on a document root (parent `none`) and on
unhiding a node not in the parent's `hidden_children`, and succeeds in
every other case — so under the precondition (a parent exists and, when
unhiding, the node is in the parent's hidden list) the error branches
are unreachable. -/
theorem C9_set_hidden_domain (parent : Option (List Node)) (self : Node) (hide : Bool) :
    (set_hidden parent self hide).1 = hide ∧
    ((set_hidden parent self hide).2 = none ↔
      parent = none ∨ (hide = false ∧ ∀ hc, parent = some hc → self ∉ hc)) := by
  refine ⟨rfl, ?_⟩
  rcases parent with _ | hc
  · simp [set_hidden]
  · cases hide
    · by_cases hmem : self ∈ hc
      · simp [set_hidden, hmem]
      · simp [set_hidden, hmem]
    · simp [set_hidden]

/-! ## Metadata codec entry points

The states these operate on: a node's children are either comments
(carrying text) or elements; a sentinel comment is one whose text starts
with `<designer.metadata.do.not.edit>`.  The jsonpickle
encoder/decoder is external to the repository and is abstracted as a
function parameter. -/

inductive MChild where
| comment (text : String)
| elem (ty : NodeType)
deriving DecidableEq

/-- The sentinel prefix marking a metadata comment. -/
def sentinel : String := "<designer.metadata.do.not.edit>"

/-- Python `str.startswith`. -/
def strStarts (pre s : String) : Bool := pre.data.isPrefixOf s.data

/-- Python `str` whitespace (the ASCII cases split on by `str.split`). -/
def pyIsSpace (c : Char) : Bool :=
  c == ' ' || c == '\t' || c == '\n' || c == '\r' || c == '\x0b' || c == '\x0c'

/-- Python `text.split(maxsplit=1)[1]` as a partial function: skip
leading whitespace and the first token, skip the following whitespace
run, and return the remainder verbatim; `none` when there is no second
field (the indexing raises `IndexError`). -/
def pySplitSnd (t : String) : Option String :=
  let l0 := t.data.dropWhile pyIsSpace
  let l1 := l0.dropWhile (fun c => !(pyIsSpace c))
  let l2 := l1.dropWhile pyIsSpace
  if l2.isEmpty then none else some (String.mk l2)

def isSentinelChild : MChild → Bool
| .comment t => strStarts sentinel t
| .elem _ => false

/-- The comment-scan loop of `_NodeElement.load_metadata` (nodes.py,
lines 225-231): for each child comment whose text starts with the
sentinel, decode `text.split(maxsplit=1)[1]`; a `JSONDecodeError`
(`Except.error`) is caught and the previous metadata kept (`continue`);
any other exception propagates.  `dec` abstracts `jsonpickle.decode`;
the result `none` models an uncaught exception — in particular the
`IndexError` raised by the `[1]` indexing when the comment has no
payload after the sentinel, which the `except JSONDecodeError` clause
does not catch. -/
def load_metadata_scan {M : Type} (dec : String → Except Unit M) :
    List MChild → M → Option M
| [], m => some m
| .elem _ :: rest, m => load_metadata_scan dec rest m
| .comment txt :: rest, m =>
  if strStarts sentinel txt then
    match pySplitSnd txt with
    | none => none
    | some payload =>
      match dec payload with
      | .ok m2 => load_metadata_scan dec rest m2
      | .error _ => load_metadata_scan dec rest m
  else load_metadata_scan dec rest m

/-- C4: for every decoder and every starting metadata value, scanning a
node whose sentinel comment carries no payload (text exactly the
sentinel prefix) aborts with an uncaught exception instead of treating
the metadata as absent: `text.split(maxsplit=1)` has a single field, so
`[1]` raises `IndexError`, which the `except JSONDecodeError` clause
does not catch. -/
theorem C4_empty_payload_raises {M : Type} (dec : String → Except Unit M) (m : M) :
    load_metadata_scan dec [MChild.comment "<designer.metadata.do.not.edit>"] m = none :=
  rfl

/-! ## `save_metadata` (nodes.py, lines 245-286) -/

/-- The metadata mapping as `save_metadata` recomputes it: the three
keys `"name"`, `"user_sort"` and `"hidden_nodes"`, each unconditionally
set or popped (a key is `none` when popped). -/
structure Meta where
  nameKey : Option String
  userSortKey : Option String
  hiddenNodesKey : Option (List String)
deriving DecidableEq

/-- Python truthiness of the recomputed dict: empty iff all three keys
were popped. -/
def Meta.isEmpty (m : Meta) : Bool :=
  m.nameKey.isNone && m.userSortKey.isNone && m.hiddenNodesKey.isNone

/-- Python `str.zfill(7)`: left-pad with zeros to width 7, after a
leading sign if any. -/
def zfill7 (s : String) : String :=
  if 7 ≤ s.length then s
  else
    match s.data with
    | '-' :: rest => String.mk ('-' :: (List.replicate (7 - s.length) '0' ++ rest))
    | '+' :: rest => String.mk ('+' :: (List.replicate (7 - s.length) '0' ++ rest))
    | l => String.mk (List.replicate (7 - s.length) '0' ++ l)

/-- Metadata-relevant state of one node: Python class, current model
item text (`self.model_item.text()`), `user_sort_order`, the
`etree.tostring` serializations of the `hidden_children` elements
(before escaping), the metadata dict, and the lxml children. -/
structure MNode where
  ty : NodeType
  itemText : String
  uso : String
  hiddenSer : List String
  meta : Meta
  children : List MChild
deriving DecidableEq

/-- Lines 249-267 of `save_metadata`: the `"name"` key is set iff the
item text differs from the type's default name; `"user_sort"` iff
`user_sort_order` is truthy and not the default `"0".zfill(7)`;
`"hidden_nodes"` iff `hidden_children` is nonempty, each serialization
escaped with the `save_metadata` replace chain. -/
def newMeta (n : MNode) : Meta :=
  Meta.mk
    (if n.itemText ≠ n.ty.dispName then some n.itemText else none)
    (if n.uso ≠ "" ∧ n.uso ≠ "0000000" then some (zfill7 n.uso) else none)
    (if n.hiddenSer ≠ [] then
      some (n.hiddenSer.map (fun s => String.mk (pyEscape s.data))) else none)

/-- `_NodeElement.save_metadata` (lines 245-286): recompute the mapping;
return early for a type with no allowed children and no text property
(line 269); otherwise update every sentinel comment in place with the
new encoding when the mapping is nonempty and remove every sentinel
comment when it is empty (lines 274-281); finally, when no sentinel
comment existed and the mapping is nonempty, append a fresh sentinel
comment through `add_child` — whose `can_add_child` check always accepts
comments except under the `NodeConfigTypeDesc` override requiring
`len(self) < 1` (lines 283-286).  `enc` abstracts `jsonpickle.encode`. -/
def save_metadata (enc : Meta → String) (n : MNode) : MNode :=
  let m := newMeta n
  if n.ty.allowed_children = [] ∧ n.ty.hasNodeText = false then
    MNode.mk n.ty n.itemText n.uso n.hiddenSer m n.children
  else
    let newText := sentinel ++ " " ++ enc m
    let cs :=
      if m.isEmpty
      then n.children.filter (fun c => !(isSentinelChild c))
      else n.children.map (fun c => if isSentinelChild c then .comment newText else c)
    let hadSent := n.children.any isSentinelChild
    let canAdd : Bool := !(decide (n.ty = .configTypeDesc)) || decide (cs.length < 1)
    let cs2 := if !hadSent && !(m.isEmpty) && canAdd then cs ++ [.comment newText] else cs
    MNode.mk n.ty n.itemText n.uso n.hiddenSer m cs2

/-- C8 counterexample: a `moduleImage` node (no allowed children, no
text property) holding a stale sentinel comment, whose recomputed
mapping is empty: the claim says the sentinel comment is removed, but
`save_metadata` returns at the leaf-property-less guard before touching
it, so the comment survives. -/
theorem C8_counterexample :
    (newMeta (MNode.mk .configModImage "Image" "0000000" [] (Meta.mk none none none)
      [MChild.comment "<designer.metadata.do.not.edit> stale"])).isEmpty = true ∧
    (save_metadata (fun _ => "")
      (MNode.mk .configModImage "Image" "0000000" [] (Meta.mk none none none)
        [MChild.comment "<designer.metadata.do.not.edit> stale"])).children =
      [MChild.comment "<designer.metadata.do.not.edit> stale"] := by
  exact ⟨rfl, rfl⟩

theorem no_sentinel_map_id (t : String) : ∀ cs : List MChild,
    cs.any isSentinelChild = false →
    cs.map (fun c => if isSentinelChild c then MChild.comment t else c) = cs := by
  intro cs h
  induction cs with
  | nil => rfl
  | cons a l ih =>
    simp only [List.any_cons, Bool.or_eq_false_iff] at h
    simp only [List.map_cons, h.1, Bool.false_eq_true, if_false, ih h.2]

/-- C8 (amended): after `save_metadata`, the stored mapping is the
recomputed one and, PROVIDED the node's type has allowed children or a
text-content property (for leaf property-less types the function
returns before touching any comment): every pre-existing sentinel
comment is updated in place to the new encoding when the mapping is
nonempty, every pre-existing sentinel comment is removed when the
mapping is empty, and when none existed a new sentinel comment is
appended iff the mapping is nonempty and the `add_child` gate accepts it
(a `typeDescriptor` that already has a child refuses the comment). -/
theorem C8_save_metadata_characterization (enc : Meta → String) (n : MNode) :
    (save_metadata enc n).meta = newMeta n ∧
    ((n.ty.allowed_children = [] ∧ n.ty.hasNodeText = false) →
      (save_metadata enc n).children = n.children) ∧
    (¬ (n.ty.allowed_children = [] ∧ n.ty.hasNodeText = false) →
      (((newMeta n).isEmpty = true →
          (save_metadata enc n).children =
            n.children.filter (fun c => !(isSentinelChild c))) ∧
        ((newMeta n).isEmpty = false → n.children.any isSentinelChild = true →
          (save_metadata enc n).children =
            n.children.map (fun c => if isSentinelChild c then
              MChild.comment (sentinel ++ " " ++ enc (newMeta n)) else c)) ∧
        ((newMeta n).isEmpty = false → n.children.any isSentinelChild = false →
          (save_metadata enc n).children =
            n.children ++
              (if n.ty = .configTypeDesc ∧ 1 ≤ n.children.length then []
                else [MChild.comment (sentinel ++ " " ++ enc (newMeta n))])))) := by
  by_cases hg : n.ty.allowed_children = [] ∧ n.ty.hasNodeText = false
  · refine ⟨?_, fun _ => ?_, fun hcon => absurd hg hcon⟩ <;>
      simp [save_metadata, hg]
  · refine ⟨?_, fun hcon => absurd hcon hg, fun _ => ⟨?_, ?_, ?_⟩⟩
    · simp [save_metadata, hg]
    · intro hemp
      simp [save_metadata, hg, hemp]
    · intro hemp hsent
      simp [save_metadata, hg, hemp, hsent]
    · intro hemp hsent
      have hmapid := no_sentinel_map_id (sentinel ++ " " ++ enc (newMeta n)) n.children hsent
      simp only [save_metadata, hg, hemp, hsent, if_neg, hmapid]
      by_cases hty : n.ty = .configTypeDesc
      · by_cases hlen : n.children.length < 1
        · have hc : n.children = [] := List.length_eq_zero.mp (by omega)
          simp [hty, hlen, hmapid, hc]
        · simp [hty, hlen, hmapid]
      · simp [hty, hmapid]

/-- C8 witness: a `Name` node carrying a custom label and an existing
sentinel comment has the comment updated in place to the new encoding. -/
theorem C8_save_metadata_characterization_witness :
    (save_metadata (fun _ => "X")
      (MNode.mk .infoName "CustomLabel" "0000000" [] (Meta.mk none none none)
        [MChild.comment "<designer.metadata.do.not.edit> old"])).children =
      [MChild.comment "<designer.metadata.do.not.edit> X"] := by
  have h := C8_save_metadata_characterization (fun _ => "X")
    (MNode.mk .infoName "CustomLabel" "0000000" [] (Meta.mk none none none)
      [MChild.comment "<designer.metadata.do.not.edit> old"])
  have h2 := (h.2.2 (by decide)).2.1 (by decide) (by decide)
  rw [h2]
  rfl

/-- C5 witness: the characterization instantiated at a `Config` root and
a `moduleName` candidate. -/
theorem C5_can_add_child_characterization_witness :
    can_add_child (Node.mk .configRoot "0000000" []) (Node.mk .configModName "0000000" []) = true :=
  (C5_can_add_child_characterization (Node.mk .configRoot "0000000" [])
      (Node.mk .configModName "0000000" [])).mpr
    ⟨Or.inl (by decide), Or.inr (by decide), fun h => absurd h (by decide)⟩

/-- C9 witness: hiding a node that has a parent succeeds. -/
theorem C9_set_hidden_domain_witness :
    (set_hidden (some []) (Node.mk .configFile "0000000" []) true).2 ≠ none := by
  have h := (C9_set_hidden_domain (some []) (Node.mk .configFile "0000000" []) true).2
  intro hcon
  rcases h.mp hcon with h1 | h2
  · exact Option.noConfusion h1
  · exact absurd h2.1 (by decide)
